import Mathlib

/-
Formal model of convex-viz, a CLI tool that renders a Convex database schema
as a Mermaid ER diagram and serves it with live WebSocket updates.

The embedding follows the CLI entry source (src/unnamed/part_000) line by
line:
  * `getFieldType` embeds the inner helper of `generateMermaidFromSchema`
    (lines 56-74), a total classifier from field validators to type labels;
  * `processFields` / `processTables` embed the entity-block loop
    (lines 75-94), including the JavaScript failure paths: dereferencing a
    null/undefined field validator at line 84, a missing
    `tableDef.validator` at line 79, and `Object.entries` applied to a
    missing `tables` collection at line 77;
  * `generateMermaidFromSchema` embeds lines 49-102, with the catch-all
    wrapper of lines 99-101 that rethrows every failure as a
    "Failed to load or parse schema" error;
  * `schemaUrl` embeds the cache-busting module URL of line 52;
  * `broadcastSends` / `broadcastMermaid` embed `broadcastMermaid`
    (lines 213-220).

JavaScript values are modelled explicitly: an optional property is an
`Option`, string interpolation of `undefined` produces "undefined"
(`jsInterp`), and the truthiness test `validator.tableName` on a string is
"present and non-empty" (`idRelTarget`). Strings are Lean `String`s; the
source only manipulates them by concatenation, interpolation and
`toUpperCase`, all of which agree with the model on the Unicode scalar
values involved.
-/

namespace ConvexViz

/-- Field validators as produced by `convex/values`. The recognized kinds are
the cases of the `switch` at lines 58-72 of the CLI source; `unknownKind`
stands for any other kind, carrying the raw `validator.kind` (`Option.none`
when the property is absent or the interpolation-relevant value is
`undefined`). `literal` carries the template-interpolation `${validator.value}`
of the carried JavaScript value (so `v.literal("")` carries `""`,
`v.literal(7)` carries "7"). `id` carries the optional `tableName` property. -/
inductive Validator where
  | string
  | id (tableName : Option String)
  | float64
  | int64
  | boolean
  | bytes
  | null
  | any
  | object
  | literal (stringified : String)
  | array (element : Validator)
  | record (key : Validator) (value : Validator)
  | union (members : List Validator)
  | unknownKind (kind : Option String)

/-- JavaScript template interpolation of a possibly-undefined string:
`${undefined}` is the text "undefined". -/
def jsInterp : Option String → String
  | Option.none => "undefined"
  | Option.some s => s

mutual

/-- Embeds `getFieldType` (lines 56-74 of the CLI source), restricted to a
present validator: one label per recognized kind, recursive on `array`,
`record` and `union`, and the `default` branch `validator.kind || "unknown"`
for unrecognized kinds. -/
def getFieldType : Validator → String
  | .string => "string"
  | .id tableName => "id(" ++ jsInterp tableName ++ ")"
  | .float64 => "number"
  | .int64 => "int"
  | .boolean => "boolean"
  | .bytes => "bytes"
  | .null => "null"
  | .any => "any"
  | .object => "object"
  | .literal stringified => stringified
  | .array element => getFieldType element ++ "[]"
  | .record key value => "record(" ++ getFieldType key ++ "_" ++ getFieldType value ++ ")"
  | .union members => "union(" ++ String.intercalate "_or_" (getFieldTypeList members) ++ ")"
  | .unknownKind kind =>
      match kind with
      | Option.some s => if s = "" then "unknown" else s
      | Option.none => "unknown"

/-- Embeds `validator.members.map(getFieldType)` of line 71. -/
def getFieldTypeList : List Validator → List String
  | [] => []
  | v :: vs => getFieldType v :: getFieldTypeList vs

end

/-- Embeds the guard `if (!validator) return "unknown"` at line 57: a
null/undefined validator is labelled "unknown". -/
def getFieldTypeOpt : Option Validator → String
  | Option.none => "unknown"
  | Option.some v => getFieldType v

/-- One element of the `relationships` array built at lines 85-89:
`{ from: tableName, to: validator.tableName, field: fieldName }`. The source
property `from` is a Lean keyword, hence `fromTable` / `toTable`. -/
structure Relationship where
  fromTable : String
  toTable : String
  field : String
  deriving DecidableEq, Repr

/-- The `tableDef.validator` object of line 79; its `fields` property may be
absent (`undefined`), which line 80 tests for. -/
structure TableValidator where
  fields : Option (List (String × Option Validator))

/-- One table definition; `validator` may be absent, in which case line 79
throws a TypeError. -/
structure TableDef where
  validator : Option TableValidator

/-- The loaded schema object (`schemaModule.default`): its `tables`
property (line 55) may be absent, in which case `Object.entries(tables)` at
line 77 throws. `Object.entries` enumerates string-keyed own properties in
insertion order, modelled as an association list. -/
structure SchemaLike where
  tables : Option (List (String × TableDef))

/-- JavaScript `String.prototype.toUpperCase`, used at lines 78 and 96.
Mapped over the characters; agrees with the source on the ASCII table names
it is applied to. -/
def toUpperCase (s : String) : String := String.mk (s.data.map Char.toUpper)

/-- The test at line 84: `validator.kind === "id" && validator.tableName`.
Only an id-kind validator whose `tableName` is present and truthy (for a
string: non-empty) contributes a relationship, carrying that table name. -/
def idRelTarget : Validator → Option String
  | .id (Option.some t) => if t = "" then Option.none else Option.some t
  | _ => Option.none

/-- Embeds the per-field loop of lines 81-91 for one table: emits one
`    <typeLabel> <fieldName>` line per field and collects the relationships
discovered, in order. A null/undefined field validator is labelled "unknown"
by line 57, but line 84 then dereferences it (`validator.kind`), which
throws a TypeError; the `Except.error` result models that throw (the text
accumulated so far is discarded, as the exception propagates out of the
whole generation). -/
def processFields (tableName : String) :
    List (String × Option Validator) → Except String (String × List Relationship)
  | [] => Except.ok ("", [])
  | (fieldName, validator?) :: rest =>
    let line := "    " ++ getFieldTypeOpt validator? ++ " " ++ fieldName ++ "\n"
    match validator? with
    | Option.none => Except.error "TypeError: cannot read kind of null or undefined"
    | Option.some v =>
      match processFields tableName rest with
      | Except.error e => Except.error e
      | Except.ok (restStr, restRels) =>
        let rels : List Relationship :=
          match idRelTarget v with
          | Option.some t => [⟨tableName, t, fieldName⟩]
          | Option.none => []
        Except.ok (line ++ restStr, rels ++ restRels)

/-- Embeds the per-table loop of lines 77-94: per table an entity block
`<NAME> \x7b ... \x7d`, with the field lines of `processFields` when the
`fields` collection is present (line 80). A missing `tableDef.validator`
makes line 79 throw. -/
def processTables :
    List (String × TableDef) → Except String (String × List Relationship)
  | [] => Except.ok ("", [])
  | (tableName, tableDef) :: rest =>
    match tableDef.validator with
    | Option.none => Except.error "TypeError: cannot read fields of undefined"
    | Option.some tv =>
      let fieldsRes :=
        match tv.fields with
        | Option.none => Except.ok ("", [])
        | Option.some fields => processFields tableName fields
      match fieldsRes with
      | Except.error e => Except.error e
      | Except.ok (fieldsStr, fieldRels) =>
        match processTables rest with
        | Except.error e => Except.error e
        | Except.ok (restStr, restRels) =>
          Except.ok (toUpperCase tableName ++ " \x7b\n" ++ fieldsStr ++ "\x7d\n" ++ restStr,
                     fieldRels ++ restRels)

/-- One relationship line, line 96:
`<TO> ||--o\x7b <FROM> : <field>` with both table names uppercased. -/
def relLine (r : Relationship) : String :=
  toUpperCase r.toTable ++ " ||--o\x7b " ++ toUpperCase r.fromTable ++ " : " ++ r.field ++ "\n"

/-- The relationship-emission loop of lines 95-97, in discovery order. -/
def relLines : List Relationship → String
  | [] => ""
  | r :: rest => relLine r ++ relLines rest

/-- The try-block of `generateMermaidFromSchema` (lines 54-98) given the
loaded module's default export (`Option.none` models a module without a
usable default export, whose `.tables` access at line 55 throws). Returns
the diagram text together with the relationship list it was built from. -/
def generateMermaidTry (schema : Option SchemaLike) :
    Except String (String × List Relationship) :=
  match schema with
  | Option.none => Except.error "TypeError: cannot read tables of undefined"
  | Option.some s =>
    match s.tables with
    | Option.none => Except.error "TypeError: cannot convert undefined or null to object"
    | Option.some tables =>
      match processTables tables with
      | Except.error e => Except.error e
      | Except.ok (body, rels) =>
        Except.ok ("erDiagram\n" ++ body ++ relLines rels, rels)

/-- Embeds `generateMermaidFromSchema` (lines 49-102) from the loaded schema
object onward: the try-block result, with every failure caught at line 99
and rethrown as `Failed to load or parse schema: <cause>` (line 100). On
the failure path no diagram text is produced. -/
def generateMermaidFromSchema (schema : Option SchemaLike) : Except String String :=
  match generateMermaidTry schema with
  | Except.ok (text, _) => Except.ok text
  | Except.error e => Except.error ("Failed to load or parse schema: " ++ e)

/-- The cache-busting module URL of line 52:
`pathToFileURL(schemaFilePath).href + "?update=" + Date.now()`, as a function
of the file-URL href and the millisecond clock reading returned by
`Date.now()` (a nonnegative integer, rendered in decimal). -/
def schemaUrl (href : String) (now : Nat) : String :=
  href ++ "?update=" ++ Nat.repr now

/-- One full run of lines 52-102: form the cache-busted URL at clock reading
`now`, ask the module system for the default export of the module at that
URL (`moduleDefault` models `(await import(url)).default`), and generate the
diagram from it. -/
def importSchemaAndGenerate (moduleDefault : String → Option SchemaLike)
    (href : String) (now : Nat) : Except String String :=
  generateMermaidFromSchema (moduleDefault (schemaUrl href now))

/-- A WebSocket client as seen by `broadcastMermaid` (lines 215-219): an
identity plus its `readyState` transport state (1 = OPEN/writable; 0, 2, 3
are CONNECTING, CLOSING, CLOSED). -/
structure Channel where
  id : Nat
  readyState : Nat
  deriving DecidableEq, Repr

/-- The fan-out loop of lines 215-219: iterate `wss.clients` in order and
call `client.send(mermaid)` exactly on the clients whose `readyState` is
OPEN. Returns the list of send events performed; skipped clients produce no
event and no error. -/
def broadcastSends (clients : List Channel) (mermaid : String) : List (Channel × String) :=
  match clients with
  | [] => []
  | c :: rest =>
    (if c.readyState = 1 then [(c, mermaid)] else []) ++ broadcastSends rest mermaid

/-- Embeds `broadcastMermaid` (lines 213-220): regenerate the diagram from
the currently loaded schema object, then fan it out to the open clients. -/
def broadcastMermaid (schema : Option SchemaLike) (clients : List Channel) :
    Except String (List (Channel × String)) :=
  match generateMermaidFromSchema schema with
  | Except.error e => Except.error e
  | Except.ok mermaid => Except.ok (broadcastSends clients mermaid)

/-- Structural well-formedness of one table as the generation loop expects
it: `tableDef.validator` present, and if its `fields` collection is present
then every field validator is present. Exactly the schemas that avoid the
TypeError paths of lines 79 and 84. -/
def wfTable (td : TableDef) : Bool :=
  match td.validator with
  | Option.none => false
  | Option.some tv =>
    match tv.fields with
    | Option.none => true
    | Option.some fs => fs.all fun p => p.2.isSome

/-- Structural well-formedness of a table collection. -/
def wfTables (ts : List (String × TableDef)) : Bool :=
  ts.all fun p => wfTable p.2

/-- Number of occurrences of `needle` in a character list: the number of
suffix positions at which `needle` is a prefix. -/
def countSub (needle : List Char) : List Char → Nat
  | [] => if needle.isPrefixOf ([] : List Char) then 1 else 0
  | c :: rest => (if needle.isPrefixOf (c :: rest) then 1 else 0) + countSub needle rest

/-- The repository test schema (src/test-schema.ts): `messages` with fields
`body : v.string()`, `user : v.id("users")`, `createdAt : v.number()`
(kind "float64"), and `users` with `name` and `tokenIdentifier` strings.
`defineTable` wraps the field record in an object validator whose `fields`
property is that record, in declaration order. -/
def testSchema : SchemaLike :=
  { tables := Option.some [
      ("messages", ⟨Option.some ⟨Option.some [
        ("body", Option.some .string),
        ("user", Option.some (.id (Option.some "users"))),
        ("createdAt", Option.some .float64)]⟩⟩),
      ("users", ⟨Option.some ⟨Option.some [
        ("name", Option.some .string),
        ("tokenIdentifier", Option.some .string)]⟩⟩)] }

/-- The diagram text the CLI produces for `testSchema`. -/
def c1ExpectedText : String :=
  "erDiagram\nMESSAGES \x7b\n    string body\n    id(users) user\n    number createdAt\n\x7d\nUSERS \x7b\n    string name\n    string tokenIdentifier\n\x7d\nUSERS ||--o\x7b MESSAGES : user\n"

/-- Field list of a table referencing a table that does not exist. -/
def danglingFields : List (String × Option Validator) :=
  [("author", Option.some (.id (Option.some "ghosts")))]

/-- Table validator wrapping `danglingFields`. -/
def danglingTV : TableValidator := ⟨Option.some danglingFields⟩

/-- Table definition wrapping `danglingTV`. -/
def danglingTD : TableDef := ⟨Option.some danglingTV⟩

/-- A schema whose only table references a table that does not exist. -/
def danglingSchema : SchemaLike := ⟨Option.some [("posts", danglingTD)]⟩

/-- Field list with one field whose validator is null/undefined. -/
def nullFields : List (String × Option Validator) := [("ghost", Option.none)]

/-- Table validator wrapping `nullFields`. -/
def nullTV : TableValidator := ⟨Option.some nullFields⟩

/-- Table definition wrapping `nullTV`. -/
def nullTD : TableDef := ⟨Option.some nullTV⟩

/-- A schema with one field whose validator is null/undefined. -/
def nullFieldSchema : SchemaLike := ⟨Option.some [("stale", nullTD)]⟩

/-- A string concatenation with a non-empty left part is non-empty. -/
theorem append_ne_empty_of_left (a b : String) (h : a ≠ "") : a ++ b ≠ "" := by
  intro hab
  apply h
  have hdata := congrArg String.data hab
  simp only [String.data_append] at hdata
  exact String.ext (List.append_eq_nil.mp hdata).1

/-- A string concatenation with a non-empty right part is non-empty. -/
theorem append_ne_empty_of_right (a b : String) (h : b ≠ "") : a ++ b ≠ "" := by
  intro hab
  apply h
  have hdata := congrArg String.data hab
  simp only [String.data_append] at hdata
  exact String.ext (List.append_eq_nil.mp hdata).2

/-- The list helper of the mutual definition is exactly `List.map` of the
classifier, as in the source (`members.map(getFieldType)`). -/
theorem getFieldTypeList_eq_map (ms : List Validator) :
    getFieldTypeList ms = ms.map getFieldType := by
  induction ms with
  | nil => rfl
  | cons v vs ih => simp [getFieldTypeList, ih]

set_option maxRecDepth 8192 in
/-- Claim C1: for the schema whose table `messages` holds a field `user`
with an id validator targeting `users` (the repository test schema),
generation produces exactly the one relationship
`{from := messages, to := users, field := user}`, and the diagram text
contains exactly one occurrence of the line
`USERS ||--o\x7b MESSAGES : user` (referenced table uppercased on the left,
referencing table uppercased on the right, labelled with the field name). -/
theorem c1_relationship_extraction :
    generateMermaidTry (Option.some testSchema) =
      Except.ok (c1ExpectedText, [⟨"messages", "users", "user"⟩])
    ∧ countSub ("USERS ||--o\x7b MESSAGES : user\n").data c1ExpectedText.data = 1 :=
  ⟨rfl, by decide⟩

/-- Claim C2: the diagram text is a pure function of the loaded schema
object: two runs (at arbitrary clock readings, against arbitrary module
systems) that load equal schema objects produce identical results, byte for
byte. -/
theorem c2_determinism (m1 m2 : String → Option SchemaLike) (h1 h2 : String)
    (t1 t2 : Nat) (hEq : m1 (schemaUrl h1 t1) = m2 (schemaUrl h2 t2)) :
    importSchemaAndGenerate m1 h1 t1 = importSchemaAndGenerate m2 h2 t2 := by
  unfold importSchemaAndGenerate
  rw [hEq]

/-- Claim C2 witness: two runs on the test schema at distinct clock readings
agree. -/
theorem c2_determinism_witness :
    (fun _ => Option.some testSchema) (schemaUrl "file:///convex/schema.ts" 1) =
      (fun _ => Option.some testSchema) (schemaUrl "file:///convex/schema.ts" 2)
    ∧ importSchemaAndGenerate (fun _ => Option.some testSchema) "file:///convex/schema.ts" 1 =
        importSchemaAndGenerate (fun _ => Option.some testSchema) "file:///convex/schema.ts" 2 :=
  ⟨rfl, c2_determinism (fun _ => Option.some testSchema) (fun _ => Option.some testSchema)
    "file:///convex/schema.ts" "file:///convex/schema.ts" 1 2 rfl⟩

/-- Claim C4: a field validator that is an array of a union of
(string, integer) is labelled `union(string_or_int)[]`; in general the
array label is the element label followed by `[]`, and the union label
joins the member labels with `_or_` in declared order inside `union(...)`. -/
theorem c4_array_union_composition :
    getFieldType (.array (.union [.string, .int64])) = "union(string_or_int)[]"
    ∧ (∀ e : Validator, getFieldType (.array e) = getFieldType e ++ "[]")
    ∧ (∀ ms : List Validator, getFieldType (.union ms) =
        "union(" ++ String.intercalate "_or_" (ms.map getFieldType) ++ ")") :=
  ⟨rfl, fun _ => rfl, fun ms => by rw [getFieldType, getFieldTypeList_eq_map]⟩

/-- Claim C3 counterexample: the claim "label(v) returns a non-empty string
for every FieldValidator variant" fails at the literal validator whose
stringified value is empty (`v.literal("")`): its label is the empty
string. -/
theorem c3_counterexample_empty_literal :
    getFieldType (Validator.literal "") = "" := rfl

/-- Claim C3 (amended): the labelling function is total — it returns a
string for every validator variant and never fails — and that string is
non-empty for every variant except a literal whose stringified value is
empty. -/
theorem c3_label_totality (v : Validator) (h : v ≠ Validator.literal "") :
    getFieldType v ≠ "" := by
  cases v with
  | string => decide
  | id tableName =>
      exact append_ne_empty_of_right ("id(" ++ jsInterp tableName) ")" (by decide)
  | float64 => decide
  | int64 => decide
  | boolean => decide
  | bytes => decide
  | null => decide
  | any => decide
  | object => decide
  | literal s =>
      intro he
      apply h
      rw [show s = "" from he]
  | array e =>
      exact append_ne_empty_of_right (getFieldType e) "[]" (by decide)
  | record k v' =>
      exact append_ne_empty_of_right _ ")" (by decide)
  | union ms =>
      exact append_ne_empty_of_right _ ")" (by decide)
  | unknownKind kind =>
      cases kind with
      | none => decide
      | some s =>
          show (if s = "" then "unknown" else s) ≠ ""
          by_cases hs : s = ""
          · rw [if_pos hs]; decide
          · rw [if_neg hs]; exact hs

/-- Claim C3 witness: the string validator is not the empty literal and its
label is non-empty. -/
theorem c3_label_totality_witness :
    (Validator.string ≠ Validator.literal "")
    ∧ getFieldType Validator.string ≠ "" :=
  ⟨fun h => Validator.noConfusion h,
   c3_label_totality Validator.string (fun h => Validator.noConfusion h)⟩

/-- Claim C5: a loaded schema object that does not expose the `tables`
collection makes generation fail with the descriptive
`Failed to load or parse schema` error (the TypeError from
`Object.entries(undefined)` is caught at line 99 and rethrown at line 100),
and no diagram text is returned on that path. -/
theorem c5_malformed_schema (s : SchemaLike) (h : s.tables = Option.none) :
    generateMermaidFromSchema (Option.some s) =
      Except.error
        "Failed to load or parse schema: TypeError: cannot convert undefined or null to object"
    ∧ ∀ t, generateMermaidFromSchema (Option.some s) ≠ Except.ok t := by
  constructor
  · simp only [generateMermaidFromSchema, generateMermaidTry, h]
    rfl
  · intro t hok
    simp only [generateMermaidFromSchema, generateMermaidTry, h] at hok
    exact Except.noConfusion hok

/-- Claim C5 witness: the schema object with no `tables` property fails as
described. -/
theorem c5_malformed_schema_witness :
    (SchemaLike.mk Option.none).tables = Option.none
    ∧ (generateMermaidFromSchema (Option.some (SchemaLike.mk Option.none)) =
        Except.error
          "Failed to load or parse schema: TypeError: cannot convert undefined or null to object"
      ∧ ∀ t, generateMermaidFromSchema (Option.some (SchemaLike.mk Option.none)) ≠
          Except.ok t) :=
  ⟨rfl, c5_malformed_schema (SchemaLike.mk Option.none) rfl⟩

/-- Core fact about `Nat.toDigitsCore`: with enough fuel, the digit
characters of a positive `n` are the decimal digits of `n`, most significant
first, in front of the accumulator. -/
theorem toDigitsCore_eq_of_ne_zero :
    ∀ (f n : Nat) (ds : List Char), n ≠ 0 → n < f →
      Nat.toDigitsCore 10 f n ds = ((Nat.digits 10 n).map Nat.digitChar).reverse ++ ds := by
  intro f
  induction f with
  | zero => intro n ds _ h; exact absurd h (Nat.not_lt_zero n)
  | succ f ih =>
    intro n ds hn hlt
    rw [Nat.digits_def' (by norm_num : (1:Nat) < 10) (Nat.pos_of_ne_zero hn)]
    simp only [Nat.toDigitsCore, List.map_cons, List.reverse_cons]
    by_cases hdiv : n / 10 = 0
    · rw [if_pos hdiv, hdiv]
      simp
    · rw [if_neg hdiv]
      have hlt' : n / 10 < f := by
        have h1 : n / 10 < n := Nat.div_lt_self (Nat.pos_of_ne_zero hn) (by norm_num)
        omega
      rw [ih (n / 10) _ hdiv hlt']
      simp

/-- Decimal rendering of a positive `n`: its digits, most significant
first. -/
theorem toDigits_eq_of_ne_zero (n : Nat) (hn : n ≠ 0) :
    Nat.toDigits 10 n = ((Nat.digits 10 n).map Nat.digitChar).reverse := by
  unfold Nat.toDigits
  rw [toDigitsCore_eq_of_ne_zero (n + 1) n [] hn (Nat.lt_succ_self n)]
  simp

/-- Digit characters are distinct below ten. -/
theorem digitChar_inj_below_ten :
    ∀ a < 10, ∀ b < 10, Nat.digitChar a = Nat.digitChar b → a = b := by
  decide

/-- Lists of decimal digits are determined by their digit characters. -/
theorem map_digitChar_inj :
    ∀ (l1 l2 : List Nat), (∀ x ∈ l1, x < 10) → (∀ x ∈ l2, x < 10) →
      l1.map Nat.digitChar = l2.map Nat.digitChar → l1 = l2 := by
  intro l1
  induction l1 with
  | nil => intro l2 _ _ h; cases l2 <;> simp_all
  | cons a l ih =>
    intro l2 h1 h2 h
    cases l2 with
    | nil => simp_all
    | cons b l2' =>
      simp only [List.map_cons, List.cons.injEq] at h
      have ha : a < 10 := h1 a (List.mem_cons_self a l)
      have hb : b < 10 := h2 b (List.mem_cons_self b l2')
      have hab : a = b := digitChar_inj_below_ten a ha b hb h.1
      have htl : l = l2' :=
        ih l2' (fun x hx => h1 x (List.mem_cons_of_mem a hx))
          (fun x hx => h2 x (List.mem_cons_of_mem b hx)) h.2
      rw [hab, htl]

/-- A number whose digit characters are exactly ['0'] is zero. -/
theorem eq_zero_of_map_digitChar_eq_zeroChar (n : Nat)
    (h0 : (Nat.digits 10 n).map Nat.digitChar = ['0']) : n = 0 := by
  cases hds : Nat.digits 10 n with
  | nil =>
    have h1 := Nat.ofDigits_digits 10 n
    rw [hds] at h1
    simpa [Nat.ofDigits] using h1.symm
  | cons d rest =>
    rw [hds] at h0
    cases rest with
    | nil =>
      simp only [List.map_cons, List.map_nil, List.cons.injEq, and_true] at h0
      have hdlt : d < 10 := Nat.digits_lt_base (by norm_num)
        (by rw [hds]; exact List.mem_cons_self d [])
      have hd0 : d = 0 := digitChar_inj_below_ten d hdlt 0 (by norm_num) h0
      have h1 := Nat.ofDigits_digits 10 n
      rw [hds, hd0] at h1
      simpa [Nat.ofDigits] using h1.symm
    | cons d2 rest2 => simp at h0

/-- Decimal rendering is injective: distinct naturals have distinct
`Nat.repr` strings. -/
theorem natRepr_inj (m n : Nat) (h : Nat.repr m = Nat.repr n) : m = n := by
  have hd : Nat.toDigits 10 m = Nat.toDigits 10 n := by
    have hdata := congrArg String.data h
    simpa [Nat.repr, List.asString] using hdata
  by_cases hm : m = 0 <;> by_cases hn : n = 0
  · rw [hm, hn]
  · exfalso
    rw [hm, toDigits_eq_of_ne_zero n hn] at hd
    have h0 : (Nat.digits 10 n).map Nat.digitChar = ['0'] := by
      have h00 : Nat.toDigits 10 0 = ['0'] := rfl
      rw [h00] at hd
      have hrev := congrArg List.reverse hd
      simpa using hrev.symm
    exact hn (eq_zero_of_map_digitChar_eq_zeroChar n h0)
  · exfalso
    rw [hn, toDigits_eq_of_ne_zero m hm] at hd
    have h0 : (Nat.digits 10 m).map Nat.digitChar = ['0'] := by
      have h00 : Nat.toDigits 10 0 = ['0'] := rfl
      rw [h00] at hd
      have hrev := congrArg List.reverse hd
      simpa using hrev
    exact hm (eq_zero_of_map_digitChar_eq_zeroChar m h0)
  · rw [toDigits_eq_of_ne_zero m hm, toDigits_eq_of_ne_zero n hn] at hd
    have hrev := congrArg List.reverse hd
    simp only [List.reverse_reverse] at hrev
    have hdig : Nat.digits 10 m = Nat.digits 10 n :=
      map_digitChar_inj _ _ (fun x hx => Nat.digits_lt_base (by norm_num) hx)
        (fun x hx => Nat.digits_lt_base (by norm_num) hx) hrev
    calc m = Nat.ofDigits 10 (Nat.digits 10 m) := (Nat.ofDigits_digits 10 m).symm
    _ = Nat.ofDigits 10 (Nat.digits 10 n) := by rw [hdig]
    _ = n := Nat.ofDigits_digits 10 n

/-- Claim C6 counterexample: it is not the case that any two loader calls
use distinct module URLs. A loader call is determined by the millisecond
clock reading `Date.now()` returns for it; two calls within the same
millisecond (here both at reading 0) build the very same URL, so the second
can be served from the module cache. -/
theorem c6_counterexample_same_millisecond :
    ¬ ∀ (t1 t2 : Nat),
        schemaUrl "file:///convex/schema.ts" t1 ≠ schemaUrl "file:///convex/schema.ts" t2 :=
  fun h => h 0 0 rfl

/-- Claim C6 (amended): every loader invocation appends a cache-busting
query `?update=<t>` with `t` the current millisecond clock reading, and
calls with distinct clock readings use distinct module URLs — so edits are
observed without restarting the process whenever reloads are at least one
millisecond apart; only calls within the same millisecond reuse a URL. -/
theorem c6_cache_busting (href : String) (t1 t2 : Nat) (h : t1 ≠ t2) :
    schemaUrl href t1 ≠ schemaUrl href t2 := by
  intro hEq
  apply h
  apply natRepr_inj
  have hdata := congrArg String.data hEq
  simp only [schemaUrl, String.data_append] at hdata
  exact String.ext (List.append_cancel_left hdata)

/-- Claim C6 witness: clock readings 1 and 2 give distinct URLs. -/
theorem c6_cache_busting_witness :
    (1 : Nat) ≠ 2
    ∧ schemaUrl "file:///convex/schema.ts" 1 ≠ schemaUrl "file:///convex/schema.ts" 2 :=
  ⟨by decide, c6_cache_busting "file:///convex/schema.ts" 1 2 (by decide)⟩

/-- A field list whose validators are all present is processed without
error. -/
theorem processFields_ok (tn : String) :
    ∀ fs : List (String × Option Validator),
      (fs.all fun p => p.2.isSome) = true →
      ∃ out, processFields tn fs = Except.ok out := by
  intro fs
  induction fs with
  | nil => intro _; exact ⟨("", []), rfl⟩
  | cons p rest ih =>
    intro h
    simp only [List.all_cons, Bool.and_eq_true] at h
    obtain ⟨⟨restStr, restRels⟩, hrest⟩ := ih h.2
    obtain ⟨f, v?⟩ := p
    cases v? with
    | none => simp at h
    | some v =>
      rcases hres : processFields tn ((f, Option.some v) :: rest) with e | out
      · exfalso
        simp only [processFields, hrest] at hres
        exact Except.noConfusion hres
      · exact ⟨out, rfl⟩

/-- A structurally well-formed table collection is processed without
error. -/
theorem processTables_ok :
    ∀ ts : List (String × TableDef), wfTables ts = true →
      ∃ out, processTables ts = Except.ok out := by
  intro ts
  induction ts with
  | nil => intro _; exact ⟨("", []), rfl⟩
  | cons p rest ih =>
    intro h
    simp only [wfTables, List.all_cons, Bool.and_eq_true] at h
    obtain ⟨⟨restStr, restRels⟩, hrest⟩ := ih h.2
    obtain ⟨tn, td⟩ := p
    obtain ⟨v?⟩ := td
    cases v? with
    | none => simp [wfTable] at h
    | some tv =>
      obtain ⟨fs?⟩ := tv
      cases fs? with
      | none =>
        rcases hres : processTables ((tn, TableDef.mk (Option.some (TableValidator.mk Option.none))) :: rest) with e | out
        · exfalso
          simp only [processTables, hrest] at hres
          exact Except.noConfusion hres
        · exact ⟨out, rfl⟩
      | some fs =>
        have hfs : (fs.all fun p => p.2.isSome) = true := by
          simpa [wfTable] using h.1
        obtain ⟨⟨fStr, fRels⟩, hf⟩ := processFields_ok tn fs hfs
        rcases hres : processTables ((tn, TableDef.mk (Option.some (TableValidator.mk (Option.some fs)))) :: rest) with e | out
        · exfalso
          simp only [processTables, hf, hrest] at hres
          exact Except.noConfusion hres
        · exact ⟨out, rfl⟩

/-- An id-kind field with a present, non-empty referenced table name always
shows up in the relationship list `processFields` collects. -/
theorem processFields_rel_mem (tn fn r : String) :
    ∀ (fs : List (String × Option Validator)) (str : String) (rels : List Relationship),
      processFields tn fs = Except.ok (str, rels) →
      (fn, Option.some (Validator.id (Option.some r))) ∈ fs →
      r ≠ "" →
      (⟨tn, r, fn⟩ : Relationship) ∈ rels := by
  intro fs
  induction fs with
  | nil => intro str rels _ hmem _; cases hmem
  | cons p rest ih =>
    intro str rels h hmem hr
    obtain ⟨f, v?⟩ := p
    cases v? with
    | none => exact Except.noConfusion h
    | some v =>
      simp only [processFields] at h
      rcases hcall : processFields tn rest with e | ⟨restStr, restRels⟩
      · simp only [hcall] at h
        exact Except.noConfusion h
      · simp only [hcall, Except.ok.injEq, Prod.mk.injEq] at h
        rcases List.mem_cons.mp hmem with hhead | htail
        · injection hhead with hfn hv
          injection hv with hv2
          rw [← h.2, ← hv2, ← hfn]
          simp only [idRelTarget, if_neg hr]
          exact List.mem_append_left _ (List.mem_cons_self _ _)
        · rw [← h.2]
          exact List.mem_append_right _ (ih restStr restRels hcall htail hr)

/-- An id-kind field with a present, non-empty referenced table name in any
member table shows up in the relationship list `processTables` collects —
whether or not the referenced table exists. -/
theorem processTables_rel_mem (tn fn r : String) (td : TableDef) (tv : TableValidator)
    (fs : List (String × Option Validator)) :
    ∀ (ts : List (String × TableDef)) (str : String) (rels : List Relationship),
      processTables ts = Except.ok (str, rels) →
      (tn, td) ∈ ts →
      td.validator = Option.some tv →
      tv.fields = Option.some fs →
      (fn, Option.some (Validator.id (Option.some r))) ∈ fs →
      r ≠ "" →
      (⟨tn, r, fn⟩ : Relationship) ∈ rels := by
  intro ts
  induction ts with
  | nil => intro str rels _ hmem; cases hmem
  | cons p rest ih =>
    intro str rels h hmem hv hf hfield hr
    obtain ⟨tn', td'⟩ := p
    rcases hv' : td'.validator with _ | tv'
    · simp only [processTables, hv'] at h
      exact Except.noConfusion h
    · simp only [processTables, hv'] at h
      rcases List.mem_cons.mp hmem with hhead | htail
      · injection hhead with htn htd
        rw [htd, hv'] at hv
        injection hv with hv2
        rcases hf' : tv'.fields with _ | fs'
        · rw [← hv2, hf'] at hf
          exact Option.noConfusion hf
        · rw [← hv2, hf'] at hf
          injection hf with hf2
          simp only [hf'] at h
          rcases hpf : processFields tn' fs' with e | ⟨fStr, fRels⟩
          · simp only [hpf] at h
            exact Except.noConfusion h
          · simp only [hpf] at h
            rcases hpt : processTables rest with e | ⟨restStr, restRels⟩
            · simp only [hpt] at h
              exact Except.noConfusion h
            · simp only [hpt, Except.ok.injEq, Prod.mk.injEq] at h
              rw [← h.2]
              refine List.mem_append_left _ ?_
              rw [← htn, hf2] at hpf
              exact processFields_rel_mem tn fn r fs fStr fRels hpf hfield hr
      · rcases hf' : tv'.fields with _ | fs' <;> simp only [hf'] at h
        · rcases hpt : processTables rest with e | ⟨restStr, restRels⟩
          · simp only [hpt] at h
            exact Except.noConfusion h
          · simp only [hpt, Except.ok.injEq, Prod.mk.injEq] at h
            rw [← h.2]
            exact List.mem_append_right _
              (ih restStr restRels hpt htail hv hf hfield hr)
        · rcases hpf : processFields tn' fs' with e | ⟨fStr, fRels⟩
          · simp only [hpf] at h
            exact Except.noConfusion h
          · simp only [hpf] at h
            rcases hpt : processTables rest with e | ⟨restStr, restRels⟩
            · simp only [hpt] at h
              exact Except.noConfusion h
            · simp only [hpt, Except.ok.injEq, Prod.mk.injEq] at h
              rw [← h.2]
              exact List.mem_append_right _
                (ih restStr restRels hpt htail hv hf hfield hr)

/-- Every relationship in the list has its line somewhere in the emitted
relationship section. -/
theorem relLines_mem_decomp :
    ∀ (rels : List Relationship) (r : Relationship), r ∈ rels →
      ∃ a b, relLines rels = a ++ relLine r ++ b := by
  intro rels
  induction rels with
  | nil => intro r h; cases h
  | cons x rest ih =>
    intro r h
    rcases List.mem_cons.mp h with h1 | h2
    · refine ⟨"", relLines rest, ?_⟩
      rw [h1]
      rw [relLines]
      rw [String.empty_append]
    · obtain ⟨a, b, hab⟩ := ih r h2
      refine ⟨relLine x ++ a, b, ?_⟩
      rw [relLines, hab]
      rw [String.append_assoc, String.append_assoc, String.append_assoc]

/-- Claim C7: for a (structurally well-formed) schema containing an id-kind
field whose referenced table name is not a table of the schema, generation
still succeeds and still emits the relationship for that field — both in the
relationship list and as a line of the diagram text. Referential integrity
is never checked: the hypothesis that the target table does not exist is
not even used. -/
theorem c7_dangling_reference (ts : List (String × TableDef)) (tn fn r : String)
    (td : TableDef) (tv : TableValidator) (fs : List (String × Option Validator))
    (hwf : wfTables ts = true)
    (hmem : (tn, td) ∈ ts)
    (hv : td.validator = Option.some tv)
    (hf : tv.fields = Option.some fs)
    (hfield : (fn, Option.some (Validator.id (Option.some r))) ∈ fs)
    (hr : r ≠ "")
    (hdangling : ∀ p ∈ ts, p.1 ≠ r) :
    ∃ text rels,
      generateMermaidTry (Option.some ⟨Option.some ts⟩) = Except.ok (text, rels)
      ∧ (⟨tn, r, fn⟩ : Relationship) ∈ rels
      ∧ ∃ pre post, text = pre ++ relLine ⟨tn, r, fn⟩ ++ post := by
  obtain ⟨⟨body, rels⟩, hok⟩ := processTables_ok ts hwf
  have hmemrel :=
    processTables_rel_mem tn fn r td tv fs ts body rels hok hmem hv hf hfield hr
  obtain ⟨a, b, hab⟩ := relLines_mem_decomp rels _ hmemrel
  refine ⟨"erDiagram\n" ++ body ++ relLines rels, rels, ?_, hmemrel,
    "erDiagram\n" ++ body ++ a, b, ?_⟩
  · simp only [generateMermaidTry, hok]
  · rw [hab]
    simp only [String.append_assoc]

/-- Claim C7 witness: the single-table schema whose `posts.author` field
references the non-existent table `ghosts` still gets its relationship line
`GHOSTS ||--o\x7b POSTS : author`. -/
theorem c7_dangling_reference_witness :
    wfTables [("posts", danglingTD)] = true
    ∧ ("posts", danglingTD) ∈ [("posts", danglingTD)]
    ∧ danglingTD.validator = Option.some danglingTV
    ∧ danglingTV.fields = Option.some danglingFields
    ∧ ("author", Option.some (Validator.id (Option.some "ghosts"))) ∈ danglingFields
    ∧ "ghosts" ≠ ""
    ∧ (∀ p ∈ [("posts", danglingTD)], p.1 ≠ "ghosts")
    ∧ ∃ text rels,
        generateMermaidTry (Option.some ⟨Option.some [("posts", danglingTD)]⟩) =
          Except.ok (text, rels)
        ∧ (⟨"posts", "ghosts", "author"⟩ : Relationship) ∈ rels
        ∧ ∃ pre post, text = pre ++ relLine ⟨"posts", "ghosts", "author"⟩ ++ post :=
  ⟨by decide, List.mem_cons_self _ _, rfl, rfl, List.mem_cons_self _ _,
   by decide, by decide,
   c7_dangling_reference [("posts", danglingTD)] "posts" "author" "ghosts"
     danglingTD danglingTV danglingFields (by decide) (List.mem_cons_self _ _)
     rfl rfl (List.mem_cons_self _ _) (by decide) (by decide)⟩

/-- A send event occurs exactly for a connected, open channel, and always
carries the broadcast text. -/
theorem mem_broadcastSends (c : Channel) (m d : String) :
    ∀ clients : List Channel,
      ((c, m) ∈ broadcastSends clients d ↔ c ∈ clients ∧ c.readyState = 1 ∧ m = d) := by
  intro clients
  induction clients with
  | nil => simp [broadcastSends]
  | cons x rest ih =>
    simp only [broadcastSends, List.mem_append, ih, List.mem_cons]
    by_cases hx : x.readyState = 1
    · rw [if_pos hx]
      constructor
      · rintro (hm | ⟨hmem, hrs, hmd⟩)
        · rcases List.mem_singleton.mp hm with hpair
          injection hpair with hc hmd
          exact ⟨Or.inl hc, by rw [hc]; exact hx, hmd⟩
        · exact ⟨Or.inr hmem, hrs, hmd⟩
      · rintro ⟨hc | hmem, hrs, hmd⟩
        · exact Or.inl (by rw [hc, hmd]; exact List.mem_singleton.mpr rfl)
        · exact Or.inr ⟨hmem, hrs, hmd⟩
    · rw [if_neg hx]
      constructor
      · rintro (hm | ⟨hmem, hrs, hmd⟩)
        · cases hm
        · exact ⟨Or.inr hmem, hrs, hmd⟩
      · rintro ⟨hc | hmem, hrs, hmd⟩
        · exact absurd (by rw [← hc]; exact hrs) hx
        · exact Or.inr ⟨hmem, hrs, hmd⟩

/-- With a duplicate-free client set (as `wss.clients` is), each open client
receives the broadcast text exactly once. -/
theorem count_broadcastSends (d : String) :
    ∀ clients : List Channel, clients.Nodup → ∀ c ∈ clients, c.readyState = 1 →
      (broadcastSends clients d).count (c, d) = 1 := by
  intro clients
  induction clients with
  | nil => intro _ c hc; cases hc
  | cons x rest ih =>
    intro hnodup c hc hrs
    have hnd := List.nodup_cons.mp hnodup
    rw [broadcastSends, List.count_append]
    rcases List.mem_cons.mp hc with hcx | hcrest
    · subst hcx
      rw [if_pos hrs]
      have h0 : (broadcastSends rest d).count (c, d) = 0 := by
        rw [List.count_eq_zero]
        intro hmem
        exact hnd.1 ((mem_broadcastSends c d d rest).mp hmem).1
      rw [h0]
      simp [List.count_cons]
    · have hcx : c ≠ x := fun hcx => hnd.1 (hcx ▸ hcrest)
      have hcnt := ih hnd.2 c hcrest hrs
      rw [hcnt]
      by_cases hx : x.readyState = 1
      · rw [if_pos hx]
        have : ((c, d) : Channel × String) ≠ (x, d) := by
          intro hpair
          injection hpair with hc _
          exact hcx hc
        simp [List.count_cons, this]
      · rw [if_neg hx]
        rfl

/-- Claim C8: when a source modification triggers `broadcastMermaid` and
regeneration succeeds with diagram `d`, the send events go exactly to the
connected channels whose transport is OPEN: each such channel receives the
fresh `d` exactly once, every event targets an open connected channel and
carries `d`, and non-open channels (including any closed earlier — absent
from the set or not OPEN) receive nothing, without any error being
raised. -/
theorem c8_broadcast (schema : Option SchemaLike) (clients : List Channel) (d : String)
    (hok : generateMermaidFromSchema schema = Except.ok d)
    (hnodup : clients.Nodup) :
    ∃ sends, broadcastMermaid schema clients = Except.ok sends
      ∧ (∀ c ∈ clients, c.readyState = 1 → sends.count (c, d) = 1)
      ∧ (∀ c ∈ clients, c.readyState ≠ 1 → ∀ m, (c, m) ∉ sends)
      ∧ (∀ p ∈ sends, p.1 ∈ clients ∧ p.1.readyState = 1 ∧ p.2 = d) := by
  refine ⟨broadcastSends clients d, ?_, ?_, ?_, ?_⟩
  · simp only [broadcastMermaid, hok]
  · intro c hc hrs
    exact count_broadcastSends d clients hnodup c hc hrs
  · intro c hc hrs m hmem
    exact hrs ((mem_broadcastSends c m d clients).mp hmem).2.1
  · intro p hp
    obtain ⟨c, m⟩ := p
    have hmem := (mem_broadcastSends c m d clients).mp hp
    exact ⟨hmem.1, hmem.2.1, hmem.2.2⟩

/-- Claim C8 witness: broadcasting the test-schema diagram to one open and
one closed channel. -/
theorem c8_broadcast_witness :
    generateMermaidFromSchema (Option.some testSchema) = Except.ok c1ExpectedText
    ∧ ([⟨0, 1⟩, ⟨1, 3⟩] : List Channel).Nodup
    ∧ ∃ sends, broadcastMermaid (Option.some testSchema) [⟨0, 1⟩, ⟨1, 3⟩] = Except.ok sends
        ∧ (∀ c ∈ ([⟨0, 1⟩, ⟨1, 3⟩] : List Channel), c.readyState = 1 →
            sends.count (c, c1ExpectedText) = 1)
        ∧ (∀ c ∈ ([⟨0, 1⟩, ⟨1, 3⟩] : List Channel), c.readyState ≠ 1 →
            ∀ m, (c, m) ∉ sends)
        ∧ (∀ p ∈ sends, p.1 ∈ ([⟨0, 1⟩, ⟨1, 3⟩] : List Channel)
            ∧ p.1.readyState = 1 ∧ p.2 = c1ExpectedText) :=
  ⟨rfl, by decide,
   c8_broadcast (Option.some testSchema) [⟨0, 1⟩, ⟨1, 3⟩] c1ExpectedText rfl (by decide)⟩

/-- A field list containing a null/undefined validator always makes the
field loop throw. -/
theorem processFields_err_of_null (tn fn : String) :
    ∀ fs : List (String × Option Validator), (fn, Option.none) ∈ fs →
      ∃ e, processFields tn fs = Except.error e := by
  intro fs
  induction fs with
  | nil => intro hmem; cases hmem
  | cons p rest ih =>
    intro hmem
    obtain ⟨f, v?⟩ := p
    cases v? with
    | none => exact ⟨_, rfl⟩
    | some v =>
      rcases List.mem_cons.mp hmem with hhead | htail
      · injection hhead with _ hv
        exact Option.noConfusion hv
      · obtain ⟨e, he⟩ := ih htail
        rcases hres : processFields tn ((f, Option.some v) :: rest) with e' | out
        · exact ⟨e', rfl⟩
        · exfalso
          simp only [processFields, he] at hres
          exact Except.noConfusion hres

/-- A table collection containing a table with a null/undefined field
validator always makes the generation loop throw (either at that field or
at an earlier failure). -/
theorem processTables_err_of_null (tn fn : String) (td : TableDef)
    (tv : TableValidator) (fs : List (String × Option Validator)) :
    ∀ ts : List (String × TableDef), (tn, td) ∈ ts →
      td.validator = Option.some tv → tv.fields = Option.some fs →
      (fn, Option.none) ∈ fs →
      ∃ e, processTables ts = Except.error e := by
  intro ts
  induction ts with
  | nil => intro hmem; cases hmem
  | cons p rest ih =>
    intro hmem hv hf hfield
    obtain ⟨tn', td'⟩ := p
    rcases hv' : td'.validator with _ | tv'
    · exact ⟨"TypeError: cannot read fields of undefined", by simp only [processTables, hv']⟩
    · rcases List.mem_cons.mp hmem with hhead | htail
      · injection hhead with htn htd
        rw [htd, hv'] at hv
        injection hv with hv2
        rw [← hv2] at hf
        obtain ⟨e, he⟩ := processFields_err_of_null tn' fn fs hfield
        exact ⟨e, by simp only [processTables, hv', hf, he]⟩
      · obtain ⟨e, he⟩ := ih htail hv hf hfield
        rcases hf' : tv'.fields with _ | fs'
        · exact ⟨e, by simp only [processTables, hv', hf', he]⟩
        · rcases hpf : processFields tn' fs' with e' | ⟨fStr, fRels⟩
          · exact ⟨e', by simp only [processTables, hv', hf', hpf]⟩
          · exact ⟨e, by simp only [processTables, hv', hf', hpf, he]⟩

/-- Claim C9 counterexample: for the schema whose table `stale` has a field
`ghost` with a null/undefined validator, the labelling guard does return
"unknown", but the table does not still compile: the relationship check at
line 84 dereferences the absent validator, so generation throws and no
entity block (and no `unknown ghost` line) is produced. -/
theorem c9_counterexample_null_validator :
    getFieldTypeOpt Option.none = "unknown"
    ∧ generateMermaidFromSchema (Option.some nullFieldSchema) =
        Except.error
          "Failed to load or parse schema: TypeError: cannot read kind of null or undefined" :=
  ⟨rfl, rfl⟩

/-- Claim C9 (amended): for a field whose validator is entirely absent, the
labelling function returns "unknown" rather than failing; but a table
containing such a field does not compile: line 84 dereferences the absent
validator for the relationship check, the TypeError is caught and rethrown
as a `Failed to load or parse schema` error, and no diagram text is
produced. -/
theorem c9_null_validator_field (ts : List (String × TableDef)) (tn fn : String)
    (td : TableDef) (tv : TableValidator) (fs : List (String × Option Validator))
    (hmem : (tn, td) ∈ ts)
    (hv : td.validator = Option.some tv)
    (hf : tv.fields = Option.some fs)
    (hfield : (fn, Option.none) ∈ fs) :
    getFieldTypeOpt Option.none = "unknown"
    ∧ (∃ e, generateMermaidFromSchema (Option.some ⟨Option.some ts⟩) =
        Except.error ("Failed to load or parse schema: " ++ e))
    ∧ ∀ t, generateMermaidFromSchema (Option.some ⟨Option.some ts⟩) ≠ Except.ok t := by
  obtain ⟨e, he⟩ := processTables_err_of_null tn fn td tv fs ts hmem hv hf hfield
  refine ⟨rfl, ⟨e, ?_⟩, ?_⟩
  · simp only [generateMermaidFromSchema, generateMermaidTry, he]
  · intro t hok
    simp only [generateMermaidFromSchema, generateMermaidTry, he] at hok
    exact Except.noConfusion hok

/-- Claim C9 witness: the amended statement applied to `nullFieldSchema`. -/
theorem c9_null_validator_field_witness :
    ("stale", nullTD) ∈ [("stale", nullTD)]
    ∧ nullTD.validator = Option.some nullTV
    ∧ nullTV.fields = Option.some nullFields
    ∧ ("ghost", Option.none) ∈ nullFields
    ∧ (getFieldTypeOpt Option.none = "unknown"
      ∧ (∃ e, generateMermaidFromSchema (Option.some ⟨Option.some [("stale", nullTD)]⟩) =
          Except.error ("Failed to load or parse schema: " ++ e))
      ∧ ∀ t, generateMermaidFromSchema (Option.some ⟨Option.some [("stale", nullTD)]⟩) ≠
          Except.ok t) :=
  ⟨List.mem_cons_self _ _, rfl, rfl, List.mem_cons_self _ _,
   c9_null_validator_field [("stale", nullTD)] "stale" "ghost" nullTD nullTV nullFields
     (List.mem_cons_self _ _) rfl rfl (List.mem_cons_self _ _)⟩

/-- The relationship test of line 84 only ever yields a present, non-empty
referenced table name. -/
theorem idRelTarget_ne_empty (v : Validator) (t : String)
    (h : idRelTarget v = Option.some t) : t ≠ "" := by
  cases v with
  | id tableName =>
    cases tableName with
    | none => exact Option.noConfusion h
    | some t' =>
      simp only [idRelTarget] at h
      by_cases ht' : t' = ""
      · rw [if_pos ht'] at h
        exact Option.noConfusion h
      · rw [if_neg ht'] at h
        injection h with h2
        rw [← h2]
        exact ht'
  | string => exact Option.noConfusion h
  | float64 => exact Option.noConfusion h
  | int64 => exact Option.noConfusion h
  | boolean => exact Option.noConfusion h
  | bytes => exact Option.noConfusion h
  | null => exact Option.noConfusion h
  | any => exact Option.noConfusion h
  | object => exact Option.noConfusion h
  | literal s => exact Option.noConfusion h
  | array e => exact Option.noConfusion h
  | record k v' => exact Option.noConfusion h
  | union ms => exact Option.noConfusion h
  | unknownKind k => exact Option.noConfusion h

/-- Every relationship collected by the field loop has a non-empty
referenced table name. -/
theorem processFields_toTable_ne (tn : String) :
    ∀ (fs : List (String × Option Validator)) (str : String) (rels : List Relationship),
      processFields tn fs = Except.ok (str, rels) →
      ∀ rel ∈ rels, rel.toTable ≠ "" := by
  intro fs
  induction fs with
  | nil =>
    intro str rels h rel hrel
    simp only [processFields, Except.ok.injEq, Prod.mk.injEq] at h
    rw [← h.2] at hrel
    cases hrel
  | cons p rest ih =>
    intro str rels h rel hrel
    obtain ⟨f, v?⟩ := p
    cases v? with
    | none => exact Except.noConfusion h
    | some v =>
      simp only [processFields] at h
      rcases hcall : processFields tn rest with e | ⟨restStr, restRels⟩
      · simp only [hcall] at h
        exact Except.noConfusion h
      · simp only [hcall, Except.ok.injEq, Prod.mk.injEq] at h
        rw [← h.2] at hrel
        rcases List.mem_append.mp hrel with hleft | hright
        · rcases hid : idRelTarget v with _ | t
          · rw [hid] at hleft
            cases hleft
          · rw [hid] at hleft
            rcases List.mem_singleton.mp hleft with hrel2
            rw [hrel2]
            exact idRelTarget_ne_empty v t hid
        · exact ih restStr restRels hcall rel hright

/-- Every relationship collected by the table loop has a non-empty
referenced table name. -/
theorem processTables_toTable_ne :
    ∀ (ts : List (String × TableDef)) (str : String) (rels : List Relationship),
      processTables ts = Except.ok (str, rels) →
      ∀ rel ∈ rels, rel.toTable ≠ "" := by
  intro ts
  induction ts with
  | nil =>
    intro str rels h rel hrel
    simp only [processTables, Except.ok.injEq, Prod.mk.injEq] at h
    rw [← h.2] at hrel
    cases hrel
  | cons p rest ih =>
    intro str rels h rel hrel
    obtain ⟨tn', td'⟩ := p
    rcases hv' : td'.validator with _ | tv'
    · simp only [processTables, hv'] at h
      exact Except.noConfusion h
    · simp only [processTables, hv'] at h
      rcases hf' : tv'.fields with _ | fs' <;> simp only [hf'] at h
      · rcases hpt : processTables rest with e | ⟨restStr, restRels⟩
        · simp only [hpt] at h
          exact Except.noConfusion h
        · simp only [hpt, Except.ok.injEq, Prod.mk.injEq] at h
          rw [← h.2] at hrel
          rcases List.mem_append.mp hrel with hleft | hright
          · cases hleft
          · exact ih restStr restRels hpt rel hright
      · rcases hpf : processFields tn' fs' with e | ⟨fStr, fRels⟩
        · simp only [hpf] at h
          exact Except.noConfusion h
        · simp only [hpf] at h
          rcases hpt : processTables rest with e | ⟨restStr, restRels⟩
          · simp only [hpt] at h
            exact Except.noConfusion h
          · simp only [hpt, Except.ok.injEq, Prod.mk.injEq] at h
            rw [← h.2] at hrel
            rcases List.mem_append.mp hrel with hleft | hright
            · exact processFields_toTable_ne tn' fs' fStr fRels hpf rel hleft
            · exact ih restStr restRels hpt rel hright

/-- Claim C10: an id-kind validator whose referenced table name is absent is
labelled `id(undefined)` (the raw interpolation) and one with an empty name
is labelled `id()`; in both cases the field contributes no relationship
(its singleton field list yields an empty relationship list); consequently
every relationship of any successful generation has a non-empty referenced
table name. -/
theorem c10_relationship_target_nonempty (s : Option SchemaLike)
    (text : String) (rels : List Relationship)
    (h : generateMermaidTry s = Except.ok (text, rels)) :
    getFieldType (Validator.id Option.none) = "id(undefined)"
    ∧ getFieldType (Validator.id (Option.some "")) = "id()"
    ∧ (∀ tn fn : String, processFields tn [(fn, Option.some (Validator.id Option.none))] =
        Except.ok ("    id(undefined) " ++ fn ++ "\n" ++ "", []))
    ∧ (∀ tn fn : String, processFields tn [(fn, Option.some (Validator.id (Option.some "")))] =
        Except.ok ("    id() " ++ fn ++ "\n" ++ "", []))
    ∧ ∀ rel ∈ rels, rel.toTable ≠ "" := by
  refine ⟨rfl, rfl, fun tn fn => rfl, fun tn fn => rfl, ?_⟩
  cases s with
  | none => exact Except.noConfusion h
  | some s' =>
    obtain ⟨tables?⟩ := s'
    cases tables? with
    | none => exact Except.noConfusion h
    | some ts =>
      simp only [generateMermaidTry] at h
      rcases hpt : processTables ts with e | ⟨body, rels'⟩
      · simp only [hpt] at h
        exact Except.noConfusion h
      · simp only [hpt, Except.ok.injEq, Prod.mk.injEq] at h
        rw [← h.2]
        exact processTables_toTable_ne ts body rels' hpt

/-- Claim C10 witness: the statement applied to the successful generation of
the test schema. -/
theorem c10_relationship_target_nonempty_witness :
    generateMermaidTry (Option.some testSchema) =
      Except.ok (c1ExpectedText, [⟨"messages", "users", "user"⟩])
    ∧ (getFieldType (Validator.id Option.none) = "id(undefined)"
      ∧ getFieldType (Validator.id (Option.some "")) = "id()"
      ∧ (∀ tn fn : String, processFields tn [(fn, Option.some (Validator.id Option.none))] =
          Except.ok ("    id(undefined) " ++ fn ++ "\n" ++ "", []))
      ∧ (∀ tn fn : String, processFields tn [(fn, Option.some (Validator.id (Option.some "")))] =
          Except.ok ("    id() " ++ fn ++ "\n" ++ "", []))
      ∧ ∀ rel ∈ [(⟨"messages", "users", "user"⟩ : Relationship)], rel.toTable ≠ "") :=
  ⟨rfl, c10_relationship_target_nonempty (Option.some testSchema) c1ExpectedText
    [⟨"messages", "users", "user"⟩] rfl⟩

end ConvexViz
